import Mathlib

/-!
Verification of the S-DES BMP encryption tool.

The definitions below are a shallow embedding of `src/sdes.c` and of the
mode loops in `src/bmper.c`.  Machine integers (`uint8_t`, `uint16_t`) are
modelled as `Nat`; wherever the C code truncates (casts to `uint8_t`,
`uint16_t` overflow, `uint8_t` counter wrap) the model takes the value
`% 2^w` explicitly.  Separately, `*_spec` definitions transcribe the
natural-language specification, to be compared with the code-derived
definitions.
-/

set_option maxRecDepth 100000

/-! ## Tables from sdes.c (1-based bit positions, as in the source) -/

def P10 : List Nat := [3,5,2,7,4,10,1,9,8,6]

def P8 : List Nat := [6,3,7,4,8,5,10,9]

def IPt : List Nat := [2,6,3,1,4,8,5,7]

def IP_INV : List Nat := [4,1,3,5,7,2,8,6]

def EP : List Nat := [4,1,2,3,2,3,4,1]

def P4 : List Nat := [2,4,3,1]

def S0 : List (List Nat) := [[1,0,3,2],[3,2,1,0],[0,2,1,3],[3,1,3,2]]

def S1 : List (List Nat) := [[0,1,2,3],[2,0,1,3],[3,0,1,0],[2,1,0,3]]

/-- `get_bit` from sdes.c: bit at 1-based index from the left within `nbits` bits. -/
def get_bit (x : Nat) (idx nbits : Nat) : Nat := (x >>> (nbits - idx)) &&& 1

/-- `permute` from sdes.c: select the bits named by `tab` (1-based, from the
left of an `inbits`-wide field), packing them MSB-first. -/
def permute (x : Nat) (tab : List Nat) (inbits : Nat) : Nat :=
  tab.foldl (fun out t => (out <<< 1) ||| (get_bit x t inbits &&& 1)) 0

/-- `rol` from sdes.c: left-rotate within `width` bits. -/
def rol (val sh width : Nat) : Nat :=
  let mask := (1 <<< width) - 1
  let v := val &&& mask
  ((v <<< sh) ||| (v >>> (width - sh))) &&& mask

/-- `sdes_generate_subkeys` from sdes.c. -/
def sdes_generate_subkeys (key10 : Nat) : Nat × Nat :=
  let p10 := permute key10 P10 10
  let left := (p10 >>> 5) &&& 0x1F
  let right := p10 &&& 0x1F
  let left1 := rol left 1 5
  let right1 := rol right 1 5
  let ls1 := (left1 <<< 5) ||| right1
  let k1 := permute ls1 P8 10
  let left2 := rol left1 2 5
  let right2 := rol right1 2 5
  let ls2 := (left2 <<< 5) ||| right2
  let k2 := permute ls2 P8 10
  (k1, k2)

/-- The inner part of `fk` from sdes.c (EP expansion, subkey XOR, S-boxes, P4):
the Feistel F function applied to the right nibble. -/
def fk_F (r subkey : Nat) : Nat :=
  let EPout := permute r EP 4
  let x := EPout ^^^ subkey
  let left4 := (x >>> 4) &&& 0x0F
  let right4 := x &&& 0x0F
  let r0 := ((left4 &&& 0x8) >>> 2) ||| (left4 &&& 0x1)
  let c0 := (left4 >>> 1) &&& 0x3
  let r1 := ((right4 &&& 0x8) >>> 2) ||| (right4 &&& 0x1)
  let c1 := (right4 >>> 1) &&& 0x3
  let s0 := (S0.getD r0 []).getD c0 0
  let s1 := (S1.getD r1 []).getD c1 0
  let s := (s0 <<< 2) ||| s1
  permute s P4 4

/-- `fk` from sdes.c: `(L xor F(R, K)) || R`, truncated to 8 bits as by the
`uint8_t` cast in the source. -/
def fk (inb subkey : Nat) : Nat :=
  (((((inb >>> 4) &&& 0x0F) ^^^ fk_F (inb &&& 0x0F) subkey) <<< 4) ||| (inb &&& 0x0F)) % 256

/-- `ip` from sdes.c. -/
def ip (x : Nat) : Nat := permute x IPt 8

/-- `ip_inv` from sdes.c. -/
def ip_inv (x : Nat) : Nat := permute x IP_INV 8

/-- `swap_halves` from sdes.c, with the `uint8_t` cast made explicit. -/
def swap_halves (x : Nat) : Nat := ((x <<< 4) ||| (x >>> 4)) % 256

/-- `sdes_encrypt_byte` from sdes.c. -/
def sdes_encrypt_byte (inb K1 K2 : Nat) : Nat :=
  ip_inv (fk (swap_halves (fk (ip inb) K1)) K2)

/-- `sdes_decrypt_byte` from sdes.c: same pipeline with subkeys reversed. -/
def sdes_decrypt_byte (inb K1 K2 : Nat) : Nat :=
  ip_inv (fk (swap_halves (fk (ip inb) K2)) K1)

/-! ## Bounds for the primitives -/

theorem permute_foldl_lt (tab : List Nat) (x inbits : Nat) :
    ∀ (acc k : Nat), acc < 2 ^ k →
      tab.foldl (fun out t => (out <<< 1) ||| (get_bit x t inbits &&& 1)) acc
        < 2 ^ (k + tab.length) := by
  induction tab with
  | nil => intro acc k h; simpa using h
  | cons t ts ih =>
    intro acc k h
    have hstep : (acc <<< 1) ||| (get_bit x t inbits &&& 1) < 2 ^ (k + 1) := by
      apply Nat.or_lt_two_pow
      · have hs : acc <<< 1 = acc * 2 := by
          rw [Nat.shiftLeft_eq, pow_one]
        rw [hs, Nat.pow_succ]
        omega
      · have h1 : get_bit x t inbits &&& 1 ≤ 1 := Nat.and_le_right
        have h2 : (2 : Nat) ≤ 2 ^ (k + 1) := by
          calc (2 : Nat) = 2 ^ 1 := (pow_one 2).symm
          _ ≤ 2 ^ (k + 1) := Nat.pow_le_pow_right (by norm_num) (by omega)
        omega
    have := ih _ _ hstep
    have harr : k + 1 + ts.length = k + (t :: ts).length := by
      simp [List.length_cons]; omega
    rw [harr] at this
    simpa using this

theorem permute_lt (x : Nat) (tab : List Nat) (inbits : Nat) :
    permute x tab inbits < 2 ^ tab.length := by
  have h := permute_foldl_lt tab x inbits 0 0 (by norm_num)
  rw [Nat.zero_add] at h
  exact h

theorem ip_lt (x : Nat) : ip x < 256 := by
  have h := permute_lt x IPt 8
  norm_num [IPt] at h
  exact h

theorem ip_inv_lt (x : Nat) : ip_inv x < 256 := by
  have h := permute_lt x IP_INV 8
  norm_num [IP_INV] at h
  exact h

theorem fk_F_lt (r K : Nat) : fk_F r K < 16 := by
  have h : (16 : Nat) = 2 ^ P4.length := by norm_num [P4]
  rw [h]
  unfold fk_F
  exact permute_lt _ P4 4

theorem fk_lt (x K : Nat) : fk x K < 256 := by
  unfold fk
  exact Nat.mod_lt _ (by norm_num)

theorem swap_halves_lt (x : Nat) : swap_halves x < 256 := by
  unfold swap_halves
  exact Nat.mod_lt _ (by norm_num)

theorem sdes_encrypt_byte_lt (b K1 K2 : Nat) : sdes_encrypt_byte b K1 K2 < 256 :=
  ip_inv_lt _

theorem sdes_decrypt_byte_lt (b K1 K2 : Nat) : sdes_decrypt_byte b K1 K2 < 256 :=
  ip_inv_lt _

theorem xor_lt_256 {a b : Nat} (ha : a < 256) (hb : b < 256) : a ^^^ b < 256 := by
  have h := Nat.xor_lt_two_pow (n := 8) (by norm_num; exact ha) (by norm_num; exact hb)
  norm_num at h
  exact h

/-! ## Small exhaustive facts about the 8-bit primitives -/

theorem nib_hi : ∀ a, a < 16 → ∀ r, r < 16 →
    ((((a <<< 4) ||| r) % 256) >>> 4) &&& 0x0F = a := by decide

theorem nib_lo : ∀ a, a < 16 → ∀ r, r < 16 →
    (((a <<< 4) ||| r) % 256) &&& 0x0F = r := by decide

theorem nib_join : ∀ x, x < 256 →
    ((((x >>> 4) &&& 0x0F) <<< 4) ||| (x &&& 0x0F)) % 256 = x := by decide

theorem and_fifteen_lt (x : Nat) : x &&& 0x0F < 16 :=
  Nat.lt_succ_of_le Nat.and_le_right

theorem ip_ip_inv : ∀ x, x < 256 → ip (ip_inv x) = x := by decide

theorem ip_inv_ip : ∀ x, x < 256 → ip_inv (ip x) = x := by decide

theorem swap_halves_swap_halves : ∀ x, x < 256 → swap_halves (swap_halves x) = x := by decide

/-- The round function is an involution for a fixed subkey. -/
theorem fk_fk (x K : Nat) (hx : x < 256) : fk (fk x K) K = x := by
  have hL : (x >>> 4) &&& 0x0F < 16 := and_fifteen_lt _
  have hR : x &&& 0x0F < 16 := and_fifteen_lt _
  have hp : fk_F (x &&& 0x0F) K < 16 := fk_F_lt _ _
  have hLp : ((x >>> 4) &&& 0x0F) ^^^ fk_F (x &&& 0x0F) K < 16 := by
    have h := Nat.xor_lt_two_pow (n := 4) (by norm_num; exact hL) (by norm_num; exact hp)
    norm_num at h
    exact h
  show fk ((((((x >>> 4) &&& 0x0F) ^^^ fk_F (x &&& 0x0F) K) <<< 4) ||| (x &&& 0x0F)) % 256) K = x
  unfold fk
  rw [nib_hi _ hLp _ hR, nib_lo _ hLp _ hR, Nat.xor_cancel_right, nib_join x hx]

/-- Decrypt inverts encrypt, for arbitrary subkeys. -/
theorem sdes_decrypt_encrypt (K1 K2 b : Nat) (hb : b < 256) :
    sdes_decrypt_byte (sdes_encrypt_byte b K1 K2) K1 K2 = b := by
  unfold sdes_encrypt_byte sdes_decrypt_byte
  rw [ip_ip_inv _ (fk_lt _ _), fk_fk _ K2 (swap_halves_lt _),
    swap_halves_swap_halves _ (fk_lt _ _), fk_fk _ K1 (ip_lt _), ip_inv_ip _ hb]

/-- Encrypt inverts decrypt, for arbitrary subkeys. -/
theorem sdes_encrypt_decrypt (K1 K2 b : Nat) (hb : b < 256) :
    sdes_encrypt_byte (sdes_decrypt_byte b K1 K2) K1 K2 = b := by
  unfold sdes_encrypt_byte sdes_decrypt_byte
  rw [ip_ip_inv _ (fk_lt _ _), fk_fk _ K1 (swap_halves_lt _),
    swap_halves_swap_halves _ (fk_lt _ _), fk_fk _ K2 (ip_lt _), ip_inv_ip _ hb]

/-! ## Claim C1 -/

/-- C1: for every 10-bit master key `k` and every 8-bit byte `b`, with
`(K1, K2) = sdes_generate_subkeys k`,
`sdes_decrypt_byte (sdes_encrypt_byte b K1 K2) K1 K2 = b`. -/
theorem sdes_roundtrip_keyschedule (k b : Nat) (hk : k < 1024) (hb : b < 256) :
    sdes_decrypt_byte
      (sdes_encrypt_byte b (sdes_generate_subkeys k).1 (sdes_generate_subkeys k).2)
      (sdes_generate_subkeys k).1 (sdes_generate_subkeys k).2 = b :=
  sdes_decrypt_encrypt _ _ b hb

theorem sdes_roundtrip_keyschedule_witness :
    642 < 1024 ∧ 37 < 256 ∧
      sdes_decrypt_byte
        (sdes_encrypt_byte 37 (sdes_generate_subkeys 642).1 (sdes_generate_subkeys 642).2)
        (sdes_generate_subkeys 642).1 (sdes_generate_subkeys 642).2 = 37 :=
  ⟨by norm_num, by norm_num, sdes_roundtrip_keyschedule 642 37 (by norm_num) (by norm_num)⟩

/-! ## Claim C10 -/

/-- Encryption as a function on the 256 byte values. -/
def encryptFin (K1 K2 : Nat) (b : Fin 256) : Fin 256 :=
  ⟨sdes_encrypt_byte b.1 K1 K2, sdes_encrypt_byte_lt _ _ _⟩

/-- Decryption as a function on the 256 byte values. -/
def decryptFin (K1 K2 : Nat) (b : Fin 256) : Fin 256 :=
  ⟨sdes_decrypt_byte b.1 K1 K2, sdes_decrypt_byte_lt _ _ _⟩

/-- C10: for every pair of 8-bit subkeys (not only key-schedule pairs) and
every byte `b`, `sdes_encrypt_byte (sdes_decrypt_byte b K1 K2) K1 K2 = b`;
both `sdes_encrypt_byte` and `sdes_decrypt_byte` are bijections on the 256
byte values, and the round function `fk` is self-inverse for a fixed subkey. -/
theorem sdes_inverse_bijection (K1 K2 b : Nat) (h1 : K1 < 256) (h2 : K2 < 256)
    (hb : b < 256) :
    sdes_encrypt_byte (sdes_decrypt_byte b K1 K2) K1 K2 = b ∧
    fk (fk b K1) K1 = b ∧
    Function.Bijective (encryptFin K1 K2) ∧
    Function.Bijective (decryptFin K1 K2) := by
  refine ⟨sdes_encrypt_decrypt K1 K2 b hb, fk_fk b K1 hb, ?_, ?_⟩
  · exact Function.bijective_iff_has_inverse.mpr
      ⟨decryptFin K1 K2,
        fun x => Fin.ext (sdes_decrypt_encrypt K1 K2 x.1 x.2),
        fun x => Fin.ext (sdes_encrypt_decrypt K1 K2 x.1 x.2)⟩
  · exact Function.bijective_iff_has_inverse.mpr
      ⟨encryptFin K1 K2,
        fun x => Fin.ext (sdes_encrypt_decrypt K1 K2 x.1 x.2),
        fun x => Fin.ext (sdes_decrypt_encrypt K1 K2 x.1 x.2)⟩

theorem sdes_inverse_bijection_witness :
    sdes_encrypt_byte (sdes_decrypt_byte 99 164 67) 164 67 = 99 :=
  (sdes_inverse_bijection 164 67 99 (by norm_num) (by norm_num) (by norm_num)).1

/-! ## Mode loops from bmper.c (pixel-stream processing) -/

/-- ECB encrypt loop from bmper.c `main`. -/
def ecb_encrypt_loop (K1 K2 : Nat) : List Nat → List Nat
  | [] => []
  | c :: rest => sdes_encrypt_byte c K1 K2 :: ecb_encrypt_loop K1 K2 rest

/-- ECB decrypt loop from bmper.c `main`. -/
def ecb_decrypt_loop (K1 K2 : Nat) : List Nat → List Nat
  | [] => []
  | c :: rest => sdes_decrypt_byte c K1 K2 :: ecb_decrypt_loop K1 K2 rest

/-- CBC encrypt loop from bmper.c `main`: `x = in XOR prev; out = Encrypt(x);
prev = out`. -/
def cbc_encrypt_loop (K1 K2 prev : Nat) : List Nat → List Nat
  | [] => []
  | c :: rest =>
    let x := c ^^^ prev
    let out := sdes_encrypt_byte x K1 K2
    out :: cbc_encrypt_loop K1 K2 out rest

/-- CBC decrypt loop from bmper.c `main`: `dec = Decrypt(in); out = dec XOR
prev; prev = in`. -/
def cbc_decrypt_loop (K1 K2 prev : Nat) : List Nat → List Nat
  | [] => []
  | c :: rest =>
    let dec := sdes_decrypt_byte c K1 K2
    let out := dec ^^^ prev
    out :: cbc_decrypt_loop K1 K2 c rest

/-- CTR loop from bmper.c `main` (encrypt direction); the `uint8_t` counter
wraps at 256. -/
def ctr_encrypt_loop (K1 K2 ctr : Nat) : List Nat → List Nat
  | [] => []
  | c :: rest =>
    let keystream := sdes_encrypt_byte ctr K1 K2
    (c ^^^ keystream) :: ctr_encrypt_loop K1 K2 ((ctr + 1) % 256) rest

/-- CTR loop from bmper.c `main` (decrypt direction; textually identical to
the encrypt direction in the source). -/
def ctr_decrypt_loop (K1 K2 ctr : Nat) : List Nat → List Nat
  | [] => []
  | c :: rest =>
    let keystream := sdes_encrypt_byte ctr K1 K2
    (c ^^^ keystream) :: ctr_decrypt_loop K1 K2 ((ctr + 1) % 256) rest

/-! ## Claim C5 -/

/-- C5: CBC round trip — for every 8-bit IV, every subkey pair and every byte
sequence (including the empty one), CBC-decrypting the CBC encryption, both
started from the same IV, reproduces the original sequence. -/
theorem cbc_roundtrip (K1 K2 iv : Nat) (l : List Nat) (hiv : iv < 256)
    (hl : ∀ b ∈ l, b < 256) :
    cbc_decrypt_loop K1 K2 iv (cbc_encrypt_loop K1 K2 iv l) = l := by
  induction l generalizing iv with
  | nil => rfl
  | cons c rest ih =>
    have hc : c < 256 := hl c (List.mem_cons_self c rest)
    have hx : c ^^^ iv < 256 := xor_lt_256 hc hiv
    simp only [cbc_encrypt_loop, cbc_decrypt_loop]
    rw [sdes_decrypt_encrypt K1 K2 (c ^^^ iv) hx, Nat.xor_cancel_right,
      ih (sdes_encrypt_byte (c ^^^ iv) K1 K2) (sdes_encrypt_byte_lt _ _ _)
        (fun b hb => hl b (List.mem_cons_of_mem c hb))]

theorem cbc_roundtrip_witness :
    cbc_decrypt_loop 164 67 7 (cbc_encrypt_loop 164 67 7 [10, 20, 30]) = [10, 20, 30] :=
  cbc_roundtrip 164 67 7 [10, 20, 30] (by norm_num) (by decide)

/-! ## Claim C6 -/

/-- C6: the CTR transform is its own inverse for every start counter and every
byte sequence (the counter wrapping at 256), and the encrypt-direction and
decrypt-direction loops compute the identical function. -/
theorem ctr_selfinverse (K1 K2 ctr0 : Nat) (l : List Nat) :
    ctr_decrypt_loop K1 K2 ctr0 (ctr_encrypt_loop K1 K2 ctr0 l) = l ∧
    ctr_encrypt_loop K1 K2 ctr0 l = ctr_decrypt_loop K1 K2 ctr0 l := by
  constructor
  · induction l generalizing ctr0 with
    | nil => rfl
    | cons c rest ih =>
      simp only [ctr_encrypt_loop, ctr_decrypt_loop]
      rw [Nat.xor_cancel_right, ih]
  · induction l generalizing ctr0 with
    | nil => rfl
    | cons c rest ih =>
      simp only [ctr_encrypt_loop, ctr_decrypt_loop]
      rw [ih]

/-! ## Claim C9 -/

/-- C9 (amended): with equal first two plaintext bytes, the second CBC
ciphertext byte differs from the second ECB ciphertext byte whenever the
first CBC ciphertext byte `Encrypt(p XOR iv)` is nonzero. -/
theorem cbc_ecb_divergence (K1 K2 iv p : Nat) (rest : List Nat) (hp : p < 256)
    (hiv : iv < 256) (hivnz : iv ≠ 0)
    (hc1 : sdes_encrypt_byte (p ^^^ iv) K1 K2 ≠ 0) :
    (cbc_encrypt_loop K1 K2 iv (p :: p :: rest)).getD 1 0 ≠
      (ecb_encrypt_loop K1 K2 (p :: p :: rest)).getD 1 0 := by
  simp only [cbc_encrypt_loop, ecb_encrypt_loop, List.getD_cons_succ, List.getD_cons_zero]
  intro h
  have hc0lt : sdes_encrypt_byte (p ^^^ iv) K1 K2 < 256 := sdes_encrypt_byte_lt _ _ _
  have hxlt : p ^^^ sdes_encrypt_byte (p ^^^ iv) K1 K2 < 256 := xor_lt_256 hp hc0lt
  have d1 := sdes_decrypt_encrypt K1 K2 (p ^^^ sdes_encrypt_byte (p ^^^ iv) K1 K2) hxlt
  rw [h, sdes_decrypt_encrypt K1 K2 p hp] at d1
  have h3 := congrArg (fun z => p ^^^ z) d1
  simp only [Nat.xor_self, Nat.xor_cancel_left] at h3
  exact hc1 h3.symm

/-- C9 as literally stated is false: subkeys (0,0), nonzero IV 1 and the
two equal plaintext bytes 241 make the second CBC byte coincide with the
second ECB byte. -/
theorem cbc_ecb_divergence_counterexample :
    (1 : Nat) ≠ 0 ∧ (241 : Nat) < 256 ∧
    (cbc_encrypt_loop 0 0 1 [241, 241]).getD 1 0 =
      (ecb_encrypt_loop 0 0 [241, 241]).getD 1 0 := by decide

theorem cbc_ecb_divergence_witness :
    (cbc_encrypt_loop 0 0 1 [0, 0]).getD 1 0 ≠ (ecb_encrypt_loop 0 0 [0, 0]).getD 1 0 :=
  cbc_ecb_divergence 0 0 1 0 [] (by norm_num) (by norm_num) (by norm_num) (by decide)

/-! ## Specification-side bit-list machinery (transcribed from the spec text) -/

/-- The `w` bits of `n`, most-significant first. -/
def bitsOfNat (w n : Nat) : List Nat := (List.range w).map (fun i => n / 2 ^ (w - 1 - i) % 2)

/-- Value of a bit list read MSB-first. -/
def natOfBits (bs : List Nat) : Nat := bs.foldl (fun a b => 2 * a + b) 0

/-- Select the bits named by a 1-based position table. -/
def selectBits (tab bs : List Nat) : List Nat := tab.map (fun t => bs.getD (t - 1) 0)

/-- Spec-side permutation of a `w`-bit value by a table of 1-based positions. -/
def permute_spec (x : Nat) (tab : List Nat) (w : Nat) : Nat :=
  natOfBits (selectBits tab (bitsOfNat w x))

/-- Spec-side rotate-left of a bit list. -/
def rotlBits (n : Nat) (bs : List Nat) : List Nat := bs.drop n ++ bs.take n

/-! ## Claim C3 -/

/-- Transcribed from the spec's key-schedule description: apply P10, split
into 5-bit halves, rotate both left by 1, concatenate, apply P8 for K1; then
rotate both a further 2 from the rotated-by-1 state, concatenate, P8 for K2. -/
def sdes_generate_subkeys_spec (k : Nat) : Nat × Nat :=
  let bits := bitsOfNat 10 k
  let p10 := selectBits P10 bits
  let L := p10.take 5
  let R := p10.drop 5
  let L1 := rotlBits 1 L
  let R1 := rotlBits 1 R
  let K1 := natOfBits (selectBits P8 (L1 ++ R1))
  let L3 := rotlBits 2 L1
  let R3 := rotlBits 2 R1
  let K2 := natOfBits (selectBits P8 (L3 ++ R3))
  (K1, K2)

set_option maxHeartbeats 2000000 in
theorem ks_chunk0 : ∀ j, j < 128 →
    sdes_generate_subkeys j = sdes_generate_subkeys_spec j := by decide
set_option maxHeartbeats 2000000 in
theorem ks_chunk1 : ∀ j, j < 128 →
    sdes_generate_subkeys (128 + j) = sdes_generate_subkeys_spec (128 + j) := by decide
set_option maxHeartbeats 2000000 in
theorem ks_chunk2 : ∀ j, j < 128 →
    sdes_generate_subkeys (256 + j) = sdes_generate_subkeys_spec (256 + j) := by decide
set_option maxHeartbeats 2000000 in
theorem ks_chunk3 : ∀ j, j < 128 →
    sdes_generate_subkeys (384 + j) = sdes_generate_subkeys_spec (384 + j) := by decide
set_option maxHeartbeats 2000000 in
theorem ks_chunk4 : ∀ j, j < 128 →
    sdes_generate_subkeys (512 + j) = sdes_generate_subkeys_spec (512 + j) := by decide
set_option maxHeartbeats 2000000 in
theorem ks_chunk5 : ∀ j, j < 128 →
    sdes_generate_subkeys (640 + j) = sdes_generate_subkeys_spec (640 + j) := by decide
set_option maxHeartbeats 2000000 in
theorem ks_chunk6 : ∀ j, j < 128 →
    sdes_generate_subkeys (768 + j) = sdes_generate_subkeys_spec (768 + j) := by decide
set_option maxHeartbeats 2000000 in
theorem ks_chunk7 : ∀ j, j < 128 →
    sdes_generate_subkeys (896 + j) = sdes_generate_subkeys_spec (896 + j) := by decide

/-- C3: for every 10-bit master key, `sdes_generate_subkeys` computes exactly
the P10 / split / rotate-by-1 / P8 subkey K1 and the rotate-2-further / P8
subkey K2 described by the spec. -/
theorem keyschedule_structure (k : Nat) (hk : k < 1024) :
    sdes_generate_subkeys k = sdes_generate_subkeys_spec k := by
  rcases Nat.lt_or_ge k 128 with h | h
  · exact ks_chunk0 k h
  · rcases Nat.lt_or_ge k 256 with h2 | h2
    · have e : 128 + (k - 128) = k := by omega
      have hc := ks_chunk1 (k - 128) (by omega)
      rwa [e] at hc
    · rcases Nat.lt_or_ge k 384 with h3 | h3
      · have e : 256 + (k - 256) = k := by omega
        have hc := ks_chunk2 (k - 256) (by omega)
        rwa [e] at hc
      · rcases Nat.lt_or_ge k 512 with h4 | h4
        · have e : 384 + (k - 384) = k := by omega
          have hc := ks_chunk3 (k - 384) (by omega)
          rwa [e] at hc
        · rcases Nat.lt_or_ge k 640 with h5 | h5
          · have e : 512 + (k - 512) = k := by omega
            have hc := ks_chunk4 (k - 512) (by omega)
            rwa [e] at hc
          · rcases Nat.lt_or_ge k 768 with h6 | h6
            · have e : 640 + (k - 640) = k := by omega
              have hc := ks_chunk5 (k - 640) (by omega)
              rwa [e] at hc
            · rcases Nat.lt_or_ge k 896 with h7 | h7
              · have e : 768 + (k - 768) = k := by omega
                have hc := ks_chunk6 (k - 768) (by omega)
                rwa [e] at hc
              · have e : 896 + (k - 896) = k := by omega
                have hc := ks_chunk7 (k - 896) (by omega)
                rwa [e] at hc

theorem keyschedule_structure_witness :
    sdes_generate_subkeys 642 = sdes_generate_subkeys_spec 642 :=
  keyschedule_structure 642 (by norm_num)

/-! ## Claim C4 -/

/-- C4 as stated is false: the master key `1010000010` (0x282 = 642) yields
K2 = `01000011` (0x43 = 67), not `10010100` (0x94 = 148). -/
theorem subkeys_kat_counterexample :
    sdes_generate_subkeys 642 = (164, 67) ∧ sdes_generate_subkeys 642 ≠ (164, 148) := by
  decide

/-- C4 (amended): the master key bits `1010000010` yield K1 = `10100100`
(0xA4) and K2 = `01000011` (0x43), the standard textbook values. -/
theorem subkeys_kat : sdes_generate_subkeys 642 = (164, 67) := by decide

/-! ## Claim C2 -/

/-- Transcribed from the spec's `fk` description: EP expansion of the low
nibble, subkey XOR, each resulting nibble read MSB-first as
(bit0,bit1,bit2,bit3) with row = (bit0<<1)|bit3 and column = (bit1<<1)|bit2
into S0 (left) and S1 (right), outputs concatenated, then P4. -/
def fk_F_spec (lo K : Nat) : Nat :=
  let ep := permute_spec lo EP 4
  let xr := ep ^^^ K
  let n0 := xr / 16 % 16
  let n1 := xr % 16
  let row0 := 2 * (n0 / 8 % 2) + n0 % 2
  let col0 := 2 * (n0 / 4 % 2) + n0 / 2 % 2
  let row1 := 2 * (n1 / 8 % 2) + n1 % 2
  let col1 := 2 * (n1 / 4 % 2) + n1 / 2 % 2
  let s0v := (S0.getD row0 []).getD col0 0
  let s1v := (S1.getD row1 []).getD col1 0
  permute_spec (4 * s0v + s1v) P4 4

/-- Transcribed from the spec: P4 output XORed into the high nibble, low
nibble passes through unchanged. -/
def fk_spec (x K : Nat) : Nat := ((x / 16 % 16) ^^^ fk_F_spec (x % 16) K) * 16 + x % 16

/-- Transcribed from the spec: swap of the two 4-bit halves. -/
def swap_spec (x : Nat) : Nat := (x % 16) * 16 + (x / 16 % 16)

/-- Transcribed from the spec: encryption is IP, fk(K1), swap, fk(K2), IP⁻¹. -/
def sdes_encrypt_spec (b K1 K2 : Nat) : Nat :=
  permute_spec (fk_spec (swap_spec (fk_spec (permute_spec b IPt 8) K1)) K2) IP_INV 8

/-- Transcribed from the spec: decryption is the identical sequence with K2
used in the first fk and K1 in the second. -/
def sdes_decrypt_spec (b K1 K2 : Nat) : Nat :=
  permute_spec (fk_spec (swap_spec (fk_spec (permute_spec b IPt 8) K2)) K1) IP_INV 8

set_option maxHeartbeats 2000000 in
theorem fkF_chunk0 : ∀ r, r < 16 → ∀ K, K < 32 →
    fk_F_spec r K = fk_F r K := by decide
set_option maxHeartbeats 2000000 in
theorem fkF_chunk1 : ∀ r, r < 16 → ∀ K, K < 32 →
    fk_F_spec r (32 + K) = fk_F r (32 + K) := by decide
set_option maxHeartbeats 2000000 in
theorem fkF_chunk2 : ∀ r, r < 16 → ∀ K, K < 32 →
    fk_F_spec r (64 + K) = fk_F r (64 + K) := by decide
set_option maxHeartbeats 2000000 in
theorem fkF_chunk3 : ∀ r, r < 16 → ∀ K, K < 32 →
    fk_F_spec r (96 + K) = fk_F r (96 + K) := by decide
set_option maxHeartbeats 2000000 in
theorem fkF_chunk4 : ∀ r, r < 16 → ∀ K, K < 32 →
    fk_F_spec r (128 + K) = fk_F r (128 + K) := by decide
set_option maxHeartbeats 2000000 in
theorem fkF_chunk5 : ∀ r, r < 16 → ∀ K, K < 32 →
    fk_F_spec r (160 + K) = fk_F r (160 + K) := by decide
set_option maxHeartbeats 2000000 in
theorem fkF_chunk6 : ∀ r, r < 16 → ∀ K, K < 32 →
    fk_F_spec r (192 + K) = fk_F r (192 + K) := by decide
set_option maxHeartbeats 2000000 in
theorem fkF_chunk7 : ∀ r, r < 16 → ∀ K, K < 32 →
    fk_F_spec r (224 + K) = fk_F r (224 + K) := by decide

theorem fk_F_spec_eq : ∀ r, r < 16 → ∀ K, K < 256 → fk_F_spec r K = fk_F r K := by
  intro r hr K hK
  rcases Nat.lt_or_ge K 32 with h | h
  · exact fkF_chunk0 r hr K h
  · rcases Nat.lt_or_ge K 64 with h2 | h2
    · have e : 32 + (K - 32) = K := by omega
      have hc := fkF_chunk1 r hr (K - 32) (by omega)
      rwa [e] at hc
    · rcases Nat.lt_or_ge K 96 with h3 | h3
      · have e : 64 + (K - 64) = K := by omega
        have hc := fkF_chunk2 r hr (K - 64) (by omega)
        rwa [e] at hc
      · rcases Nat.lt_or_ge K 128 with h4 | h4
        · have e : 96 + (K - 96) = K := by omega
          have hc := fkF_chunk3 r hr (K - 96) (by omega)
          rwa [e] at hc
        · rcases Nat.lt_or_ge K 160 with h5 | h5
          · have e : 128 + (K - 128) = K := by omega
            have hc := fkF_chunk4 r hr (K - 128) (by omega)
            rwa [e] at hc
          · rcases Nat.lt_or_ge K 192 with h6 | h6
            · have e : 160 + (K - 160) = K := by omega
              have hc := fkF_chunk5 r hr (K - 160) (by omega)
              rwa [e] at hc
            · rcases Nat.lt_or_ge K 224 with h7 | h7
              · have e : 192 + (K - 192) = K := by omega
                have hc := fkF_chunk6 r hr (K - 192) (by omega)
                rwa [e] at hc
              · have e : 224 + (K - 224) = K := by omega
                have hc := fkF_chunk7 r hr (K - 224) (by omega)
                rwa [e] at hc

theorem fk_shell : ∀ x, x < 256 → ∀ p, p < 16 →
    ((x / 16 % 16) ^^^ p) * 16 + x % 16 =
      ((((x >>> 4) &&& 0x0F) ^^^ p) <<< 4 ||| (x &&& 0x0F)) % 256 := by decide

theorem and_fifteen_eq_mod (x : Nat) : x &&& 0x0F = x % 16 := by
  have h := Nat.and_pow_two_sub_one_eq_mod x 4
  norm_num at h
  exact h

theorem fk_spec_eq (x K : Nat) (hx : x < 256) (hK : K < 256) : fk_spec x K = fk x K := by
  have h1 : x % 16 < 16 := Nat.mod_lt _ (by norm_num)
  have hcore : fk_F_spec (x % 16) K = fk_F (x % 16) K := fk_F_spec_eq _ h1 K hK
  have hp : fk_F (x % 16) K < 16 := fk_F_lt _ _
  unfold fk_spec
  rw [hcore, fk_shell x hx _ hp]
  unfold fk
  rw [and_fifteen_eq_mod x]

theorem ip_spec_eq : ∀ x, x < 256 → permute_spec x IPt 8 = ip x := by decide

theorem ip_inv_spec_eq : ∀ x, x < 256 → permute_spec x IP_INV 8 = ip_inv x := by decide

theorem swap_spec_eq : ∀ x, x < 256 → swap_spec x = swap_halves x := by decide

/-- C2: for 8-bit blocks and subkeys, `sdes_encrypt_byte` is exactly the
spec's IP / fk(K1) / swap / fk(K2) / IP⁻¹ pipeline, `sdes_decrypt_byte` is
the same pipeline with K2 first, and `fk` matches the spec's EP / subkey-XOR
/ S-box (row = (bit0<<1)|bit3, column = (bit1<<1)|bit2) / P4 description
with the low nibble passing through unchanged. -/
theorem sdes_block_structure (b K1 K2 : Nat) (hb : b < 256) (h1 : K1 < 256) (h2 : K2 < 256) :
    sdes_encrypt_spec b K1 K2 = sdes_encrypt_byte b K1 K2 ∧
    sdes_decrypt_spec b K1 K2 = sdes_decrypt_byte b K1 K2 ∧
    fk_spec b K1 = fk b K1 := by
  refine ⟨?_, ?_, fk_spec_eq b K1 hb h1⟩
  · unfold sdes_encrypt_spec sdes_encrypt_byte
    rw [ip_spec_eq b hb, fk_spec_eq _ K1 (ip_lt b) h1, swap_spec_eq _ (fk_lt _ _),
      fk_spec_eq _ K2 (swap_halves_lt _) h2, ip_inv_spec_eq _ (fk_lt _ _)]
  · unfold sdes_decrypt_spec sdes_decrypt_byte
    rw [ip_spec_eq b hb, fk_spec_eq _ K2 (ip_lt b) h2, swap_spec_eq _ (fk_lt _ _),
      fk_spec_eq _ K1 (swap_halves_lt _) h1, ip_inv_spec_eq _ (fk_lt _ _)]

theorem sdes_block_structure_witness :
    sdes_encrypt_spec 0 164 67 = sdes_encrypt_byte 0 164 67 ∧
    sdes_decrypt_spec 0 164 67 = sdes_decrypt_byte 0 164 67 ∧
    fk_spec 0 164 = fk 0 164 :=
  sdes_block_structure 0 164 67 (by norm_num) (by norm_num) (by norm_num)

/-! ## Key-string parsing from sdes.c -/

/-- The loop of `sdes_parse_key10_bits` from sdes.c: `n` counts every
character consumed (bit or whitespace alike), `k` is the `uint16_t`
accumulator; the final mask keeps the low 10 bits. -/
def sdes_parse_key10_loop : List Char → Nat → Nat → Except Int Nat
  | [], n, k => if n < 10 then Except.error (-3) else Except.ok (k &&& 0x3FF)
  | ch :: rest, n, k =>
    if ch = '\n' ∨ ch = '\r' then
      if n < 10 then Except.error (-3) else Except.ok (k &&& 0x3FF)
    else if ch = '0' ∨ ch = '1' then
      sdes_parse_key10_loop rest (n + 1) (((k <<< 1) ||| (ch.toNat - '0'.toNat)) % 65536)
    else if ch = ' ' ∨ ch = '\t' then
      sdes_parse_key10_loop rest (n + 1) k
    else Except.error (-2)

/-- `sdes_parse_key10_bits` from sdes.c (the NULL-pointer error `-1` has no
counterpart for a Lean list). -/
def sdes_parse_key10_bits (bits : List Char) : Except Int Nat :=
  sdes_parse_key10_loop bits 0 0

/-- The characters before the first LF/CR terminator. -/
def beforeTerm : List Char → List Char
  | [] => []
  | c :: cs => if c = '\n' ∨ c = '\r' then [] else c :: beforeTerm cs

/-- Significant (bit) characters. -/
def isBitChar (c : Char) : Bool := decide (c = '0' ∨ c = '1')

/-- Whitespace skipped by the parser. -/
def isWsChar (c : Char) : Bool := decide (c = ' ' ∨ c = '\t')

/-- Characters the parser rejects. -/
def isInvalidChar (c : Char) : Bool := !(isBitChar c || isWsChar c)

/-- Numeric value of a bit character. -/
def bitVal (c : Char) : Nat := c.toNat - '0'.toNat

/-- The accumulator the parse loop computes over the bit characters. -/
def accumBits (cs : List Char) (k : Nat) : Nat :=
  cs.foldl (fun a c => if isBitChar c then ((a <<< 1) ||| bitVal c) % 65536 else a) k

theorem parse_loop_spec : ∀ (cs : List Char) (n k : Nat),
    ((beforeTerm cs).any isInvalidChar = true →
      sdes_parse_key10_loop cs n k = Except.error (-2)) ∧
    ((beforeTerm cs).any isInvalidChar = false → n + (beforeTerm cs).length < 10 →
      sdes_parse_key10_loop cs n k = Except.error (-3)) ∧
    ((beforeTerm cs).any isInvalidChar = false → 10 ≤ n + (beforeTerm cs).length →
      sdes_parse_key10_loop cs n k = Except.ok (accumBits (beforeTerm cs) k &&& 0x3FF)) := by
  intro cs
  induction cs with
  | nil =>
    intro n k
    refine ⟨?_, ?_, ?_⟩
    · intro h; simp [beforeTerm] at h
    · intro _ h2
      simp only [beforeTerm, List.length_nil, Nat.add_zero] at h2
      simp [sdes_parse_key10_loop, h2]
    · intro _ h2
      simp only [beforeTerm, List.length_nil, Nat.add_zero] at h2
      simp [sdes_parse_key10_loop, accumBits, beforeTerm, Nat.not_lt.mpr h2]
  | cons c cs ih =>
    intro n k
    by_cases hterm : c = '\n' ∨ c = '\r'
    · refine ⟨?_, ?_, ?_⟩
      · intro h; simp [beforeTerm, hterm] at h
      · intro _ h2
        simp only [beforeTerm, hterm, if_true, List.length_nil, Nat.add_zero] at h2
        simp [sdes_parse_key10_loop, hterm, h2]
      · intro _ h2
        simp only [beforeTerm, hterm, if_true, List.length_nil, Nat.add_zero] at h2
        simp [sdes_parse_key10_loop, hterm, accumBits, beforeTerm, Nat.not_lt.mpr h2]
    · by_cases hbit : c = '0' ∨ c = '1'
      · have hInv : isInvalidChar c = false := by
          rcases hbit with h | h <;> subst h <;> decide
        have hBit : isBitChar c = true := by
          rcases hbit with h | h <;> subst h <;> decide
        refine ⟨?_, ?_, ?_⟩
        · intro h
          simp only [beforeTerm, hterm, if_false, List.any_cons, hInv, Bool.false_or] at h
          simp only [sdes_parse_key10_loop, hterm, if_false, hbit, if_true]
          exact (ih (n + 1) (((k <<< 1) ||| (c.toNat - '0'.toNat)) % 65536)).1 h
        · intro h1 h2
          simp only [beforeTerm, hterm, if_false, List.any_cons, hInv, Bool.false_or] at h1
          simp only [beforeTerm, hterm, if_false, List.length_cons] at h2
          simp only [sdes_parse_key10_loop, hterm, if_false, hbit, if_true]
          exact (ih (n + 1) (((k <<< 1) ||| (c.toNat - '0'.toNat)) % 65536)).2.1 h1 (by omega)
        · intro h1 h2
          simp only [beforeTerm, hterm, if_false, List.any_cons, hInv, Bool.false_or] at h1
          simp only [beforeTerm, hterm, if_false, List.length_cons] at h2
          simp only [sdes_parse_key10_loop, hterm, if_false, hbit, if_true]
          have h3 := (ih (n + 1) (((k <<< 1) ||| (c.toNat - '0'.toNat)) % 65536)).2.2 h1 (by omega)
          rw [h3]
          simp only [beforeTerm, hterm, if_false, accumBits, List.foldl_cons, hBit, if_true,
            bitVal]
      · by_cases hws : c = ' ' ∨ c = '\t'
        · have hInv : isInvalidChar c = false := by
            rcases hws with h | h <;> subst h <;> decide
          have hBit : isBitChar c = false := by
            rcases hws with h | h <;> subst h <;> decide
          refine ⟨?_, ?_, ?_⟩
          · intro h
            simp only [beforeTerm, hterm, if_false, List.any_cons, hInv, Bool.false_or] at h
            simp only [sdes_parse_key10_loop, hterm, if_false, hbit, hws, if_true]
            exact (ih (n + 1) k).1 h
          · intro h1 h2
            simp only [beforeTerm, hterm, if_false, List.any_cons, hInv, Bool.false_or] at h1
            simp only [beforeTerm, hterm, if_false, List.length_cons] at h2
            simp only [sdes_parse_key10_loop, hterm, if_false, hbit, hws, if_true]
            exact (ih (n + 1) k).2.1 h1 (by omega)
          · intro h1 h2
            simp only [beforeTerm, hterm, if_false, List.any_cons, hInv, Bool.false_or] at h1
            simp only [beforeTerm, hterm, if_false, List.length_cons] at h2
            simp only [sdes_parse_key10_loop, hterm, if_false, hbit, hws, if_true]
            have h3 := (ih (n + 1) k).2.2 h1 (by omega)
            rw [h3]
            simp [beforeTerm, hterm, accumBits, List.foldl_cons, hBit]
        · have hInv : isInvalidChar c = true := by
            simp only [isInvalidChar, isBitChar, isWsChar, Bool.not_eq_true', Bool.or_eq_false_iff,
              decide_eq_false_iff_not]
            exact ⟨hbit, hws⟩
          refine ⟨?_, ?_, ?_⟩
          · intro _
            simp [sdes_parse_key10_loop, hterm, hbit, hws]
          · intro h1 _
            simp only [beforeTerm, hterm, if_false, List.any_cons, hInv, Bool.true_or] at h1
            exact absurd h1 (by decide)
          · intro h1 _
            simp only [beforeTerm, hterm, if_false, List.any_cons, hInv, Bool.true_or] at h1
            exact absurd h1 (by decide)

/-! ## Claim C7 -/

/-- C7 as stated is false: `"12345"` yields InvalidKeyFormat (-2), not
KeyTooShort (-3), because '2' is rejected before the length check; and the
10-character string of 5 bits and 5 spaces has fewer than 10 significant bit
characters yet parses successfully, because the parser's length check counts
whitespace characters too. -/
theorem parse_errors_counterexample :
    sdes_parse_key10_bits ['1','2','3','4','5'] = Except.error (-2) ∧
    (Except.error (-2) : Except Int Nat) ≠ Except.error (-3) ∧
    sdes_parse_key10_bits ['1','1','1','1','1',' ',' ',' ',' ',' '] = Except.ok 31 := by
  refine ⟨by rfl, by simp, by rfl⟩

/-- C7 (amended): the parser returns InvalidKeyFormat (-2) if any character
other than '0', '1', space or tab occurs before the terminator; otherwise it
returns KeyTooShort (-3) exactly when fewer than 10 characters — bit and
whitespace characters both counted — precede the terminator; otherwise it
succeeds.  Both `"12345"` and `"10x0000000"` therefore yield
InvalidKeyFormat. -/
theorem sdes_parse_key10_spec (cs : List Char) :
    ((beforeTerm cs).any isInvalidChar = true →
      sdes_parse_key10_bits cs = Except.error (-2)) ∧
    ((beforeTerm cs).any isInvalidChar = false → (beforeTerm cs).length < 10 →
      sdes_parse_key10_bits cs = Except.error (-3)) ∧
    ((beforeTerm cs).any isInvalidChar = false → 10 ≤ (beforeTerm cs).length →
      ∃ k, sdes_parse_key10_bits cs = Except.ok k) := by
  refine ⟨(parse_loop_spec cs 0 0).1, ?_, ?_⟩
  · intro h1 h2
    exact (parse_loop_spec cs 0 0).2.1 h1 (by omega)
  · intro h1 h2
    exact ⟨_, (parse_loop_spec cs 0 0).2.2 h1 (by omega)⟩

theorem sdes_parse_key10_spec_witness :
    sdes_parse_key10_bits ['1','0','x','0','0','0','0','0','0','0'] = Except.error (-2) ∧
    sdes_parse_key10_bits ['1','0','1'] = Except.error (-3) ∧
    (∃ k, sdes_parse_key10_bits ['1','0','1','0','0','0','0','0','1','0'] = Except.ok k) :=
  ⟨(sdes_parse_key10_spec ['1','0','x','0','0','0','0','0','0','0']).1 (by decide),
   (sdes_parse_key10_spec ['1','0','1']).2.1 (by decide) (by decide),
   (sdes_parse_key10_spec ['1','0','1','0','0','0','0','0','1','0']).2.2 (by decide) (by decide)⟩

/-! ## Claim C8 -/

theorem two_mul_or_one (a : Nat) : 2 * a ||| 1 = 2 * a + 1 := by
  have hmod : (2 * a ||| 1) % 2 = 1 := by
    simp [Nat.or_mod_two_eq_one]
  have hdiv : (2 * a ||| 1) / 2 = a := by
    rw [Nat.or_div_two]
    simp [Nat.mul_div_cancel_left a (by norm_num : 0 < 2)]
  omega

theorem shiftLeft_one_or_bit (k b : Nat) (hb : b ≤ 1) : (k <<< 1) ||| b = 2 * k + b := by
  have hs : k <<< 1 = 2 * k := by
    rw [Nat.shiftLeft_eq, pow_one]; ring
  interval_cases b
  · simp [hs]
  · rw [hs, two_mul_or_one]

theorem bitVal_le_one {c : Char} (hc : isBitChar c = true) : bitVal c ≤ 1 := by
  have h := of_decide_eq_true hc
  rcases h with h | h <;> subst h <;> decide

theorem accumBits_mod1024 : ∀ (l : List Char) (a b : Nat), a % 1024 = b % 1024 →
    accumBits l a % 1024 =
      (l.foldl (fun x c => if isBitChar c then 2 * x + bitVal c else x) b) % 1024 := by
  intro l
  induction l with
  | nil => intro a b h; simpa [accumBits] using h
  | cons c l ih =>
    intro a b h
    by_cases hc : isBitChar c = true
    · simp only [accumBits, List.foldl_cons, hc, if_true]
      refine ih _ _ ?_
      rw [shiftLeft_one_or_bit a _ (bitVal_le_one hc)]
      have hd : (2 * a + bitVal c) % 65536 % 1024 = (2 * a + bitVal c) % 1024 :=
        Nat.mod_mod_of_dvd _ (by norm_num)
      rw [hd]
      omega
    · simp only [accumBits, List.foldl_cons, hc, if_false]
      exact ih _ _ h

theorem natOfBits_filter : ∀ (l : List Char) (a : Nat),
    ((l.filter isBitChar).map bitVal).foldl (fun x b => 2 * x + b) a =
      l.foldl (fun x c => if isBitChar c then 2 * x + bitVal c else x) a := by
  intro l
  induction l with
  | nil => intro a; rfl
  | cons c l ih =>
    intro a
    by_cases hc : isBitChar c = true
    · simp [List.filter_cons, hc, ih]
    · simp [List.filter_cons, hc, ih]

theorem and_1023_eq_mod (x : Nat) : x &&& 0x3FF = x % 1024 := by
  have h := Nat.and_pow_two_sub_one_eq_mod x 10
  norm_num at h
  exact h

/-- Value (read MSB-first) of all significant bit characters of a key string. -/
def sigBitsVal (cs : List Char) : Nat :=
  natOfBits (((beforeTerm cs).filter isBitChar).map bitVal)

/-- Value (read MSB-first) of the first 10 significant bit characters of a
key string — what the claim says the parser uses. -/
def first10Val (cs : List Char) : Nat :=
  natOfBits ((((beforeTerm cs).filter isBitChar).take 10).map bitVal)

/-- C8 as stated is false: the 11-bit string `10000000000` is valid and has
more than 10 significant bit characters; its first 10 significant bits read
MSB-first give 512, but the parser returns 0 (it keeps the LAST 10 bits of
the accumulator). -/
theorem parse_first10_counterexample :
    (beforeTerm ['1','0','0','0','0','0','0','0','0','0','0']).any isInvalidChar = false ∧
    10 < ((beforeTerm ['1','0','0','0','0','0','0','0','0','0','0']).filter isBitChar).length ∧
    first10Val ['1','0','0','0','0','0','0','0','0','0','0'] = 512 ∧
    sdes_parse_key10_bits ['1','0','0','0','0','0','0','0','0','0','0'] = Except.ok 0 ∧
    (0 : Nat) ≠ 512 := by
  refine ⟨by rfl, by decide, by rfl, by rfl, by decide⟩

/-- C8 (amended): for every valid key string with at least 10 characters
before the terminator, the parsed key is the value of ALL significant bit
characters, read MSB-first, reduced mod 2^10 — i.e. the parser keeps the
last 10 significant bits, not the first 10. -/
theorem sdes_parse_uses_last10 (cs : List Char)
    (hv : (beforeTerm cs).any isInvalidChar = false)
    (hn : 10 ≤ (beforeTerm cs).length) :
    sdes_parse_key10_bits cs = Except.ok (sigBitsVal cs % 1024) := by
  have h := (parse_loop_spec cs 0 0).2.2 hv (by omega)
  show sdes_parse_key10_loop cs 0 0 = _
  rw [h]
  congr 1
  rw [and_1023_eq_mod]
  have hb := accumBits_mod1024 (beforeTerm cs) 0 0 rfl
  rw [hb]
  unfold sigBitsVal natOfBits
  rw [natOfBits_filter]

theorem sdes_parse_uses_last10_witness :
    sdes_parse_key10_bits ['1','0','0','0','0','0','0','0','0','0','0'] =
      Except.ok (sigBitsVal ['1','0','0','0','0','0','0','0','0','0','0'] % 1024) :=
  sdes_parse_uses_last10 ['1','0','0','0','0','0','0','0','0','0','0'] (by decide) (by decide)
